import Mathlib

/-!
# Verification of the contractor-management reconciliation engine

Shallow embedding of the financial engine of the repository
(`backend/services/earnings_service.py`, `backend/services/payment_service.py`,
`backend/services/bank_account_service.py`, `backend/routers/payments.py`)
and proofs of the spec's claims about it.

Python `Decimal` values are modelled as `ℚ`; `quantize(Decimal('0.01'),
ROUND_HALF_UP)` is modelled by `quantize2` (round to cents, ties away from
zero, matching `decimal.ROUND_HALF_UP`).
-/

namespace Dotfak

/-- Round a rational to the nearest integer, ties away from zero
(Python `Decimal.quantize(Decimal('1'), rounding=ROUND_HALF_UP)`). -/
def roundHalfUpInt (q : ℚ) : ℤ :=
  if 0 ≤ q then ⌊q + 1/2⌋ else -⌊-q + 1/2⌋

/-- Round a rational to the nearest cent, ties away from zero
(Python `.quantize(Decimal('0.01'), rounding=ROUND_HALF_UP)`). -/
def quantize2 (q : ℚ) : ℚ :=
  (roundHalfUpInt (q * 100) : ℚ) / 100

/-- Round a rational to the nearest half
(Python `(raw * 2).quantize(Decimal('1'), ROUND_HALF_UP) / 2`). -/
def roundToHalf (q : ℚ) : ℚ :=
  (roundHalfUpInt (q * 2) : ℚ) / 2

/-- Helper: `listIsPrefixOf needle hay` : the char list `needle` is a prefix of `hay`. -/
def listIsPrefixOf : List Char → List Char → Bool
  | [], _ => true
  | _ :: _, [] => false
  | a :: as, b :: bs => a == b && listIsPrefixOf as bs

/-- Helper: `listContainsSub needle hay` : `needle` occurs as a contiguous sublist of
`hay` (Python's `needle in hay` on strings). -/
def listContainsSub (needle : List Char) : List Char → Bool
  | [] => listIsPrefixOf needle []
  | c :: cs => listIsPrefixOf needle (c :: cs) || listContainsSub needle cs

/-- Python `description.lower()`, as a char list (ASCII lowering). -/
def lowerData (s : String) : List Char :=
  s.data.map Char.toLower

/-- Python `keyword in description.lower()` for a lowercase keyword. -/
def containsKw (description : String) (kw : String) : Bool :=
  listContainsSub kw.data (lowerData description)

/-- Python `any(keyword in description.lower() for keyword in kws)`. -/
def matchesAny (description : String) (kws : List String) : Bool :=
  kws.any (fun kw => containsKw description kw)

/-- Embeds `EarningsCalculator.BONUS_KEYWORDS`. -/
def BONUS_KEYWORDS : List String :=
  ["bonus", "incentive", "commission", "retention", "referral", "award",
   "stipend", "gift card", "gift"]

/-- Embeds `EarningsCalculator.REGULAR_KEYWORDS`. -/
def REGULAR_KEYWORDS : List String :=
  ["regular", "overtime", "overtime premium", "education differential",
   "shift differential", "holiday", "vacation", "sick", "pto", "personal time"]

/-- Embeds `EarningsCalculator.SUPPLEMENTAL_HOUR_KEYWORDS`. -/
def SUPPLEMENTAL_HOUR_KEYWORDS : List String :=
  ["premium", "differential", "group term life", "gtl", "gross up"]

/-- One pay-period line item, as extracted from a paystub
(`paystub_data['earnings']` entries). -/
structure PayLine where
  description : String
  hours : ℚ
  rate : ℚ
  amount : ℚ
deriving DecidableEq, Repr

/-- Embeds `EarningsCalculator.identify_bonuses`: split a line list into
`(regular_earnings, bonuses)`.  Regular keywords are checked first; a line
matching neither keyword set defaults to regular. -/
def identify_bonuses : List PayLine → List PayLine × List PayLine
  | [] => ([], [])
  | e :: rest =>
    let p := identify_bonuses rest
    if matchesAny e.description REGULAR_KEYWORDS then (e :: p.1, p.2)
    else if matchesAny e.description BONUS_KEYWORDS then (p.1, e :: p.2)
    else (e :: p.1, p.2)

/-- Embeds `EarningsCalculator._get_base_rate`: the rate on the first line whose
description contains "regular" and whose rate is positive. -/
def get_base_rate : List PayLine → Option ℚ
  | [] => none
  | e :: rest =>
    if containsKw e.description "regular" && decide (0 < e.rate) then some e.rate
    else get_base_rate rest

/-- Embeds `EarningsCalculator._has_overtime_premium`. -/
def has_overtime_premium (lines : List PayLine) : Bool :=
  lines.any (fun e => containsKw e.description "overtime premium")

/-- Embeds `EarningsCalculator._get_earning_multiplier`: rate multiplier for a line,
`none` when the line is supplemental and must be skipped. -/
def get_earning_multiplier (description : String) (rate : ℚ)
    (base_rate : Option ℚ) (has_ot_premium : Bool) : Option ℚ :=
  if matchesAny description SUPPLEMENTAL_HOUR_KEYWORDS then none
  else if containsKw description "overtime" then
    if has_ot_premium then some (3/2)
    else
      match base_rate with
      | some br => if 0 < br ∧ 0 < rate then some (roundToHalf (rate / br)) else some (3/2)
      | none => some (3/2)
  else if containsKw description "double time" then some 2
  else
    match base_rate with
    | some br => if 0 < br ∧ 0 < rate then some (roundToHalf (rate / br)) else some 1
    | none => some 1

/-- The fixed-rate loop in `EarningsCalculator.calculate_earnings`
(`rate_type == 'fixed'`): lines with nonpositive hours and lines whose
multiplier is `none` are skipped; each surviving line contributes
`hours * fixed_rate * multiplier` rounded half-up to the cent. -/
def contractorRegularFixed (fixed_rate : ℚ) (base_rate : Option ℚ)
    (has_ot_premium : Bool) : List PayLine → ℚ
  | [] => 0
  | e :: rest =>
    let restSum := contractorRegularFixed fixed_rate base_rate has_ot_premium rest
    if e.hours ≤ 0 then restSum
    else
      match get_earning_multiplier e.description e.rate base_rate has_ot_premium with
      | none => restSum
      | some m => quantize2 (e.hours * fixed_rate * m) + restSum

/-- Embeds `rate_type` of a contractor assignment. -/
inductive RateType
  | fixed
  | percentage
deriving DecidableEq, Repr

/-- The rate-contract fields of a contractor assignment used by
`calculate_earnings`. -/
structure Assignment where
  rate_type : RateType
  fixed_hourly_rate : ℚ
  percentage_rate : ℚ
  bonus_split_percentage : ℚ
deriving DecidableEq, Repr

/-- Embeds `payment_status` values on an earnings record. -/
inductive PaymentStatus
  | unpaid
  | partially_paid
  | paid
deriving DecidableEq, Repr

/-- The fields of the dictionary returned by
`EarningsCalculator.calculate_earnings` (metadata omitted). -/
structure Earnings where
  client_gross_pay : ℚ
  client_total_hours : ℚ
  contractor_regular_earnings : ℚ
  contractor_bonus_share : ℚ
  contractor_total_earnings : ℚ
  company_margin : ℚ
  payment_status : PaymentStatus
  amount_paid : ℚ
  amount_pending : ℚ
deriving DecidableEq, Repr

/-- Embeds `EarningsCalculator.calculate_earnings` (the pure computation; the paystub
summary's gross pay and the earnings line list are passed directly). -/
def calculate_earnings (client_gross : ℚ) (lines : List PayLine)
    (a : Assignment) : Earnings :=
  let p := identify_bonuses lines
  let regular_earnings := p.1
  let bonuses := p.2
  let bonus_total := (bonuses.map (fun b => b.amount)).sum
  let regular_total := (regular_earnings.map (fun r => r.amount)).sum
  let total_hours :=
    ((regular_earnings.filter
        (fun e => !matchesAny e.description SUPPLEMENTAL_HOUR_KEYWORDS)).map
      (fun e => e.hours)).sum
  let contractor_regular :=
    match a.rate_type with
    | .fixed =>
        contractorRegularFixed a.fixed_hourly_rate (get_base_rate lines)
          (has_overtime_premium lines) regular_earnings
    | .percentage => quantize2 (regular_total * a.percentage_rate / 100)
  let contractor_bonus := quantize2 (bonus_total * a.bonus_split_percentage / 100)
  let contractor_total := contractor_regular + contractor_bonus
  { client_gross_pay := client_gross
    client_total_hours := total_hours
    contractor_regular_earnings := contractor_regular
    contractor_bonus_share := contractor_bonus
    contractor_total_earnings := contractor_total
    company_margin := client_gross - contractor_total
    payment_status := .unpaid
    amount_paid := 0
    amount_pending := contractor_total }

/-- Embeds `EarningsCalculator.validate_earnings`: `.error` models a raised
`ValueError`; on success the payload records whether the negative-margin
warning was logged. -/
def validate_earnings (e : Earnings) : Except String Bool :=
  if 2/100 <
      |e.contractor_total_earnings + e.company_margin - e.client_gross_pay| then
    .error "Earnings don't add up"
  else if e.contractor_total_earnings ≤ 0 then
    .error "Contractor earnings must be positive"
  else
    .ok (e.company_margin < 0)

/-- True when `validate_earnings` did not raise. -/
def validationOk (r : Except String Bool) : Bool :=
  match r with
  | .ok _ => true
  | .error _ => false

/-- Embeds `owner_type` of a bank account (`bank_accounts.owner_type`). -/
inductive OwnerType
  | contractor
  | admin
  | other
deriving DecidableEq, Repr

/-- A `paystub_account_splits` row joined with its bank account's owner type. -/
structure AccountSplit where
  owner_type : OwnerType
  amount : ℚ
deriving DecidableEq, Repr

/-- Embeds `variance_status` values. -/
inductive VarianceStatus
  | correct
  | overpaid
  | underpaid
deriving DecidableEq, Repr

/-- The split-summing loop of
`EarningsCalculator.calculate_earnings_with_dual_tracking`:
`(contractor_actual, admin_actual)`. -/
def splitActuals : List AccountSplit → ℚ × ℚ
  | [] => (0, 0)
  | s :: rest =>
    let p := splitActuals rest
    match s.owner_type with
    | .contractor => (s.amount + p.1, p.2)
    | .admin => (p.1, s.amount + p.2)
    | .other => p

/-- The fields of the dictionary returned by
`EarningsCalculator.calculate_earnings_with_dual_tracking` (metadata omitted). -/
structure DualEarnings where
  expected_earnings : ℚ
  contractor_regular_earnings : ℚ
  contractor_bonus_share : ℚ
  actual_payments : ℚ
  admin_actual_payments : ℚ
  payment_variance : ℚ
  variance_status : VarianceStatus
  client_gross_pay : ℚ
  client_total_hours : ℚ
  company_margin : ℚ
  payment_status : PaymentStatus
  amount_paid : ℚ
  amount_pending : ℚ
deriving DecidableEq, Repr

/-- Embeds `EarningsCalculator.calculate_earnings_with_dual_tracking`: the paystub's
account splits (each joined with its account's owner type) are passed in place
of the `paystub_account_splits` query. -/
def calculate_earnings_with_dual_tracking (client_gross : ℚ)
    (lines : List PayLine) (a : Assignment)
    (splits : List AccountSplit) : DualEarnings :=
  let expected := calculate_earnings client_gross lines a
  let actuals := splitActuals splits
  let contractor_actual := actuals.1
  let admin_actual := actuals.2
  let expected_total := expected.contractor_total_earnings
  let payment_variance := contractor_actual - expected_total
  let variance_status : VarianceStatus :=
    if |payment_variance| ≤ 1/100 then .correct
    else if 1/100 < payment_variance then .overpaid
    else .underpaid
  { expected_earnings := expected_total
    contractor_regular_earnings := expected.contractor_regular_earnings
    contractor_bonus_share := expected.contractor_bonus_share
    actual_payments := contractor_actual
    admin_actual_payments := admin_actual
    payment_variance := payment_variance
    variance_status := variance_status
    client_gross_pay := expected.client_gross_pay
    client_total_hours := expected.client_total_hours
    company_margin := expected.company_margin
    payment_status := .unpaid
    amount_paid := 0
    amount_pending := contractor_actual }

/-- The deposit-summing loop of
`BankAccountService.sync_earnings_payment_status` (contractor-owned splits
only). -/
def contractorDeposit : List AccountSplit → ℚ
  | [] => 0
  | s :: rest =>
    (match s.owner_type with
     | .contractor => s.amount
     | _ => 0) + contractorDeposit rest

/-- The fields written back to `contractor_earnings` by
`BankAccountService.sync_earnings_payment_status`. -/
structure SyncUpdate where
  expected_earnings : ℚ
  actual_payments : ℚ
  amount_paid : ℚ
  amount_pending : ℚ
  payment_variance : ℚ
  variance_status : VarianceStatus
  payment_status : PaymentStatus
deriving DecidableEq, Repr

/-- Embeds `BankAccountService.sync_earnings_payment_status`: `expected` is the
record's `contractor_total_earnings`, `splits` the paystub's account splits. -/
def sync_earnings_payment_status (expected : ℚ)
    (splits : List AccountSplit) : SyncUpdate :=
  let deposit := contractorDeposit splits
  let variance := deposit - expected
  let variance_status : VarianceStatus :=
    if |variance| ≤ 1/100 then .correct
    else if 0 < variance then .overpaid
    else .underpaid
  let payment_status : PaymentStatus :=
    if expected - 1/100 ≤ deposit then .paid
    else if 0 < deposit then .partially_paid
    else .unpaid
  { expected_earnings := expected
    actual_payments := deposit
    amount_paid := deposit
    amount_pending := expected - deposit
    payment_variance := variance
    variance_status := variance_status
    payment_status := payment_status }

/-- A `contractor_earnings` row as read by the payment allocator
(id and dates abstracted to naturals). -/
structure EarningRecord where
  id : Nat
  pay_period_begin : Nat
  contractor_total_earnings : ℚ
  amount_paid : ℚ
  amount_pending : ℚ
  payment_status : PaymentStatus
deriving DecidableEq, Repr

/-- One allocation produced by the allocator
(`{'earning_id': ..., 'amount': ...}`). -/
structure Allocation where
  earning_id : Nat
  amount : ℚ
deriving DecidableEq, Repr

/-- The loop body of `PaymentService.allocate_payment_fifo`. -/
def allocateFifoGo : ℚ → List EarningRecord → List Allocation
  | _, [] => []
  | remaining, e :: rest =>
    if remaining ≤ 0 then []
    else if e.amount_pending ≤ 0 then allocateFifoGo remaining rest
    else
      ⟨e.id, min remaining e.amount_pending⟩ ::
        allocateFifoGo (remaining - min remaining e.amount_pending) rest

/-- Embeds `PaymentService.allocate_payment_fifo`: allocate a payment across a list
of earnings records (ordered oldest first by the caller's query). -/
def allocate_payment_fifo (payment_amount : ℚ)
    (earnings_list : List EarningRecord) : List Allocation :=
  allocateFifoGo payment_amount earnings_list

/-- The status derivation shared by
`PaymentService.update_earning_payment_status` and the manager payment
endpoints: `paid` if nothing is pending, else `partially_paid` if anything
was paid, else `unpaid`. -/
def derivePaymentStatus (new_paid new_pending : ℚ) : PaymentStatus :=
  if new_pending ≤ 0 then .paid
  else if 0 < new_paid then .partially_paid
  else .unpaid

/-- Embeds `PaymentService.update_earning_payment_status`: apply one allocation
amount to an earnings record. -/
def update_earning_payment_status (e : EarningRecord)
    (allocation_amount : ℚ) : EarningRecord :=
  let new_paid := e.amount_paid + allocation_amount
  let new_pending := e.contractor_total_earnings - new_paid
  { e with
    amount_paid := new_paid
    amount_pending := new_pending
    payment_status := derivePaymentStatus new_paid new_pending }

/-- The per-allocation update step of `PaymentService.record_payment`:
the record with the allocation's `earning_id` is updated in the table. -/
def applyContractorAllocation (recs : List EarningRecord)
    (al : Allocation) : List EarningRecord :=
  recs.map (fun e =>
    if e.id == al.earning_id then update_earning_payment_status e al.amount
    else e)

/-- Step 3 of `PaymentService.record_payment`: apply every allocation in
order. -/
def applyContractorAllocations (recs : List EarningRecord)
    (allocs : List Allocation) : List EarningRecord :=
  allocs.foldl applyContractorAllocation recs

/-- A `manager_earnings` row as used by the manager payment endpoints. -/
structure ManagerEarning where
  id : Nat
  pay_period_begin : Nat
  total_earnings : ℚ
  amount_paid : ℚ
  amount_pending : ℚ
  payment_status : PaymentStatus
deriving DecidableEq, Repr

/-- A `manager_payments` row. -/
structure ManagerPayment where
  id : Nat
  amount : ℚ
deriving DecidableEq, Repr

/-- A `manager_payment_allocations` row. -/
structure ManagerAllocRow where
  payment_id : Nat
  manager_earning_id : Nat
  amount_allocated : ℚ
deriving DecidableEq, Repr

/-- The database state touched by the manager payment endpoints. -/
structure ManagerPayDB where
  payments : List ManagerPayment
  allocations : List ManagerAllocRow
  earnings : List ManagerEarning
deriving DecidableEq, Repr

/-- The `payment_status in ('unpaid', 'partially_paid')` filter of the
manager FIFO query in `record_manager_payment`. -/
def isOutstanding (e : ManagerEarning) : Bool :=
  e.payment_status == .unpaid || e.payment_status == .partially_paid

/-- The FIFO loop of `record_manager_payment` over the queried snapshot:
the allocations it decides to record. -/
def managerFifoAllocs : ℚ → List ManagerEarning → List Allocation
  | _, [] => []
  | remaining, e :: rest =>
    if remaining ≤ 0 then []
    else if e.amount_pending ≤ 0 then managerFifoAllocs remaining rest
    else
      ⟨e.id, min remaining e.amount_pending⟩ ::
        managerFifoAllocs (remaining - min remaining e.amount_pending) rest

/-- The per-allocation earning update of `record_manager_payment`:
`amount_paid += alloc`, `amount_pending = total_earnings - amount_paid`,
status derived. -/
def applyManagerAllocation (recs : List ManagerEarning)
    (al : Allocation) : List ManagerEarning :=
  recs.map (fun e =>
    if e.id == al.earning_id then
      { e with
        amount_paid := e.amount_paid + al.amount
        amount_pending := e.total_earnings - (e.amount_paid + al.amount)
        payment_status :=
          derivePaymentStatus (e.amount_paid + al.amount)
            (e.total_earnings - (e.amount_paid + al.amount)) }
    else e)

/-- Embeds `record_manager_payment` (`POST /payments/manager`): insert the payment
row, run the FIFO loop over the outstanding earnings, insert an allocation row
and update the target earning for every allocation. -/
def record_manager_payment (db : ManagerPayDB) (payment_id : Nat)
    (amount : ℚ) : ManagerPayDB :=
  let allocs := managerFifoAllocs amount (db.earnings.filter isOutstanding)
  { payments := db.payments ++ [⟨payment_id, amount⟩]
    allocations := db.allocations ++
      allocs.map (fun a => ⟨payment_id, a.earning_id, a.amount⟩)
    earnings := allocs.foldl applyManagerAllocation db.earnings }

/-- The per-allocation reversal step of `delete_manager_payment`:
`amount_paid = max(0, amount_paid - amount_allocated)`,
`amount_pending = total_earnings - amount_paid`, status derived. -/
def reverseManagerAllocation (recs : List ManagerEarning)
    (al : Allocation) : List ManagerEarning :=
  recs.map (fun e =>
    if e.id == al.earning_id then
      { e with
        amount_paid := max 0 (e.amount_paid - al.amount)
        amount_pending := e.total_earnings - max 0 (e.amount_paid - al.amount)
        payment_status :=
          derivePaymentStatus (max 0 (e.amount_paid - al.amount))
            (e.total_earnings - max 0 (e.amount_paid - al.amount)) }
    else e)

/-- Embeds `delete_manager_payment` (`DELETE /payments/manager/{payment_id}`):
reverse every allocation of the payment, then delete the allocation rows
(cascade) and the payment row. -/
def delete_manager_payment (db : ManagerPayDB) (payment_id : Nat) :
    ManagerPayDB :=
  let toReverse := db.allocations.filter (fun r => r.payment_id == payment_id)
  { payments := db.payments.filter (fun p => !(p.id == payment_id))
    allocations := db.allocations.filter (fun r => !(r.payment_id == payment_id))
    earnings :=
      (toReverse.map (fun r =>
          (⟨r.manager_earning_id, r.amount_allocated⟩ : Allocation))).foldl
        reverseManagerAllocation db.earnings }

/-- The methods actually defined on `PaymentService`
(`backend/services/payment_service.py`).  Neither `delete_payment` nor
`preview_fifo_allocation` is among them, although
`backend/routers/payments.py` invokes both. -/
def paymentServiceMethods : List String :=
  ["get_unpaid_earnings", "allocate_payment_fifo", "record_payment",
   "update_earning_payment_status", "get_earnings_summary"]

/-- A `contractor_payments` row (only the id matters here). -/
structure ContractorPayment where
  id : Nat
deriving DecidableEq, Repr

/-- The database state visible to the contractor payment-deletion endpoint. -/
structure ContractorPayDB where
  payments : List ContractorPayment
  allocations : List ManagerAllocRow
  earnings : List EarningRecord
deriving DecidableEq, Repr

/-- Outcome of an HTTP handler. -/
inductive HandlerOutcome
  | notFound
  | internalError (msg : String)
  | success
deriving DecidableEq, Repr

/-- Python attribute dispatch on `PaymentService`: an implementation table may
interpret a method name only if the class defines a method of that name;
looking up any other name raises `AttributeError`. -/
def callPaymentServiceMethod
    (impl : String → Option (ContractorPayDB → Nat → ContractorPayDB))
    (name : String) (db : ContractorPayDB) (arg : Nat) :
    Except String ContractorPayDB :=
  match impl name with
  | some f => .ok (f db arg)
  | none => .error ("AttributeError: " ++ name)

/-- Embeds `delete_payment` (`DELETE /payments/{payment_id}`): check the payment
exists, then call `PaymentService.delete_payment`; any exception is caught
and surfaced as a 500 error, leaving the state it had. -/
def delete_payment_endpoint
    (impl : String → Option (ContractorPayDB → Nat → ContractorPayDB))
    (db : ContractorPayDB) (payment_id : Nat) :
    HandlerOutcome × ContractorPayDB :=
  if db.payments.all (fun p => !(p.id == payment_id)) then (.notFound, db)
  else
    match callPaymentServiceMethod impl "delete_payment" db payment_id with
    | .ok db2 => (.success, db2)
    | .error m => (.internalError m, db)

/-- Embeds `preview_allocation` (`GET /payments/preview-allocation`): call
`PaymentService.preview_fifo_allocation`; any exception is caught and
surfaced as a 500 error. -/
def preview_allocation_endpoint
    (impl : String → Option (ContractorPayDB → Nat → ContractorPayDB))
    (db : ContractorPayDB) (contractor_id : Nat) :
    HandlerOutcome × ContractorPayDB :=
  match callPaymentServiceMethod impl "preview_fifo_allocation" db contractor_id with
  | .ok db2 => (.success, db2)
  | .error m => (.internalError m, db)

/-- The FIFO loop exactly as the spec words it (for comparison with the
code's `allocateFifoGo`): skip a record when its pending amount is 0,
allocate `min(remaining, pending)` otherwise, stop when remaining reaches 0
or records are exhausted. -/
def fifoSpecWalk : ℚ → List EarningRecord → List Allocation
  | _, [] => []
  | remaining, e :: rest =>
    if remaining = 0 then []
    else if e.amount_pending = 0 then fifoSpecWalk remaining rest
    else
      ⟨e.id, min remaining e.amount_pending⟩ ::
        fifoSpecWalk (remaining - min remaining e.amount_pending) rest

/-- Well-formedness of a manager earnings row as the engine maintains it:
nonnegative amount-paid, pending = total − paid, and the derived status. -/
def wfManagerEarning (e : ManagerEarning) : Prop :=
  0 ≤ e.amount_paid ∧
  e.amount_pending = e.total_earnings - e.amount_paid ∧
  e.payment_status = derivePaymentStatus e.amount_paid e.amount_pending

/-- The effective regular-bucket predicate of `identify_bonuses`: a line is
regular iff it matches a regular keyword or matches no bonus keyword. -/
def isRegularLine (e : PayLine) : Bool :=
  matchesAny e.description REGULAR_KEYWORDS ||
    !matchesAny e.description BONUS_KEYWORDS

theorem identify_bonuses_eq_filter (lines : List PayLine) :
    identify_bonuses lines =
      (lines.filter isRegularLine,
       lines.filter (fun e => !(isRegularLine e))) := by
  induction lines with
  | nil => rfl
  | cons e rest ih =>
    cases h1 : matchesAny e.description REGULAR_KEYWORDS <;>
      cases h2 : matchesAny e.description BONUS_KEYWORDS <;>
      simp [identify_bonuses, ih, List.filter_cons, isRegularLine, h1, h2]

theorem splitActuals_fst (splits : List AccountSplit) :
    (splitActuals splits).1 =
      ((splits.filter (fun s => s.owner_type == OwnerType.contractor)).map
        (fun s => s.amount)).sum := by
  induction splits with
  | nil => rfl
  | cons s rest ih =>
    cases h : s.owner_type <;>
      simp [splitActuals, List.filter_cons, h, ih]

theorem splitActuals_snd (splits : List AccountSplit) :
    (splitActuals splits).2 =
      ((splits.filter (fun s => s.owner_type == OwnerType.admin)).map
        (fun s => s.amount)).sum := by
  induction splits with
  | nil => rfl
  | cons s rest ih =>
    cases h : s.owner_type <;>
      simp [splitActuals, List.filter_cons, h, ih]

end Dotfak

namespace Dotfak

/-- C9: the Classifier assigns every pay line to exactly one of the regular or
incentive buckets; the two output lists are the filters of the input along a
single predicate (hence partition it without loss or duplication, preserving
relative order); a line matching a regular keyword is regular, with regular
precedence checked before bonus keywords; a line matching neither keyword set
defaults to regular. -/
theorem classifier_partitions_lines (lines : List PayLine) :
    (identify_bonuses lines).1 = lines.filter isRegularLine ∧
    (identify_bonuses lines).2 = lines.filter (fun e => !(isRegularLine e)) ∧
    List.Perm ((identify_bonuses lines).1 ++ (identify_bonuses lines).2)
      lines ∧
    (identify_bonuses lines).1.length + (identify_bonuses lines).2.length =
      lines.length ∧
    List.Sublist (identify_bonuses lines).1 lines ∧
    List.Sublist (identify_bonuses lines).2 lines ∧
    (∀ e : PayLine, matchesAny e.description REGULAR_KEYWORDS = true →
      isRegularLine e = true) ∧
    (∀ e : PayLine, matchesAny e.description REGULAR_KEYWORDS = false →
      matchesAny e.description BONUS_KEYWORDS = false →
      isRegularLine e = true) ∧
    (∀ e : PayLine, matchesAny e.description REGULAR_KEYWORDS = false →
      matchesAny e.description BONUS_KEYWORDS = true →
      isRegularLine e = false) := by
  have hf := identify_bonuses_eq_filter lines
  have h1 : (identify_bonuses lines).1 = lines.filter isRegularLine := by
    rw [hf]
  have h2 : (identify_bonuses lines).2 =
      lines.filter (fun e => !(isRegularLine e)) := by rw [hf]
  refine ⟨h1, h2, ?_, ?_, ?_, ?_, ?_, ?_, ?_⟩
  · rw [h1, h2]; exact List.filter_append_perm isRegularLine lines
  · have := (List.filter_append_perm isRegularLine lines).length_eq
    simpa [h1, h2] using this
  · rw [h1]; exact List.filter_sublist lines
  · rw [h2]; exact List.filter_sublist lines
  · intro e he; simp [isRegularLine, he]
  · intro e he hb; simp [isRegularLine, he, hb]
  · intro e he hb; simp [isRegularLine, he, hb]

theorem classifier_partitions_lines_witness :
    isRegularLine ⟨"Overtime Premium", 10, 15/2, 75⟩ = true ∧
    isRegularLine ⟨"Referral Level Two", 0, 0, 50⟩ = false ∧
    isRegularLine ⟨"Adjustment", 0, 0, 10⟩ = true :=
  ⟨(classifier_partitions_lines []).2.2.2.2.2.2.1 _ (by decide),
   (classifier_partitions_lines []).2.2.2.2.2.2.2.2 _ (by decide) (by decide),
   (classifier_partitions_lines []).2.2.2.2.2.2.2.1 _ (by decide) (by decide)⟩

theorem varianceStatusIff (v : ℚ) :
    ((if |v| ≤ 1/100 then VarianceStatus.correct
      else if 1/100 < v then VarianceStatus.overpaid
      else VarianceStatus.underpaid) = VarianceStatus.correct ↔
      |v| ≤ 1/100) ∧
    ((if |v| ≤ 1/100 then VarianceStatus.correct
      else if 1/100 < v then VarianceStatus.overpaid
      else VarianceStatus.underpaid) = VarianceStatus.overpaid ↔
      1/100 < v) ∧
    ((if |v| ≤ 1/100 then VarianceStatus.correct
      else if 1/100 < v then VarianceStatus.overpaid
      else VarianceStatus.underpaid) = VarianceStatus.underpaid ↔
      v < -(1/100)) := by
  split_ifs with hA hB
  · have h := abs_le.mp hA
    exact ⟨iff_of_true rfl hA,
      iff_of_false (by decide) (by linarith [h.2]),
      iff_of_false (by decide) (by linarith [h.1])⟩
  · exact ⟨iff_of_false (by decide) hA,
      iff_of_true rfl hB,
      iff_of_false (by decide) (by linarith)⟩
  · have hB' : v ≤ 1/100 := le_of_not_lt hB
    have hv : v < -(1/100) := by
      by_contra hcon
      push_neg at hcon
      exact hA (abs_le.mpr ⟨hcon, hB'⟩)
    exact ⟨iff_of_false (by decide) hA,
      iff_of_false (by decide) hB,
      iff_of_true rfl hv⟩

theorem syncVarianceStatusIff (v : ℚ) :
    ((if |v| ≤ 1/100 then VarianceStatus.correct
      else if 0 < v then VarianceStatus.overpaid
      else VarianceStatus.underpaid) = VarianceStatus.correct ↔
      |v| ≤ 1/100) ∧
    ((if |v| ≤ 1/100 then VarianceStatus.correct
      else if 0 < v then VarianceStatus.overpaid
      else VarianceStatus.underpaid) = VarianceStatus.overpaid ↔
      1/100 < v) ∧
    ((if |v| ≤ 1/100 then VarianceStatus.correct
      else if 0 < v then VarianceStatus.overpaid
      else VarianceStatus.underpaid) = VarianceStatus.underpaid ↔
      v < -(1/100)) := by
  split_ifs with hA hB
  · have h := abs_le.mp hA
    exact ⟨iff_of_true rfl hA,
      iff_of_false (by decide) (by linarith [h.2]),
      iff_of_false (by decide) (by linarith [h.1])⟩
  · have hv : 1/100 < v := lt_of_not_le (by rwa [abs_of_pos hB] at hA)
    exact ⟨iff_of_false (by decide) hA,
      iff_of_true rfl hv,
      iff_of_false (by decide) (by linarith)⟩
  · have hB' : v ≤ 0 := le_of_not_lt hB
    have hv : v < -(1/100) := by
      have : 1/100 < |v| := lt_of_not_le hA
      rw [abs_of_nonpos hB'] at this
      linarith
    exact ⟨iff_of_false (by decide) hA,
      iff_of_false (by decide) (by linarith),
      iff_of_true rfl hv⟩

/-- C8: the Reconciler computes actual-payments as the sum of deposit splits
owned by the contractor, payment-variance as actual minus expected, and
variance-status with a one-cent tolerance (correct iff within a cent,
overpaid iff more than a cent above, underpaid iff more than a cent below);
the same classification holds for the sync variant. -/
theorem reconciler_variance_classification (gross : ℚ) (lines : List PayLine)
    (a : Assignment) (splits : List AccountSplit) (d : DualEarnings)
    (hd : d = calculate_earnings_with_dual_tracking gross lines a splits) :
    d.actual_payments =
      ((splits.filter (fun s => s.owner_type == OwnerType.contractor)).map
        (fun s => s.amount)).sum ∧
    d.payment_variance = d.actual_payments - d.expected_earnings ∧
    (d.variance_status = .correct ↔ |d.payment_variance| ≤ 1/100) ∧
    (d.variance_status = .overpaid ↔ 1/100 < d.payment_variance) ∧
    (d.variance_status = .underpaid ↔ d.payment_variance < -(1/100)) ∧
    (∀ expected : ℚ,
      (sync_earnings_payment_status expected splits).payment_variance =
        (sync_earnings_payment_status expected splits).actual_payments -
          expected ∧
      ((sync_earnings_payment_status expected splits).variance_status =
          .correct ↔
        |(sync_earnings_payment_status expected splits).payment_variance| ≤
          1/100) ∧
      ((sync_earnings_payment_status expected splits).variance_status =
          .overpaid ↔
        1/100 <
          (sync_earnings_payment_status expected splits).payment_variance) ∧
      ((sync_earnings_payment_status expected splits).variance_status =
          .underpaid ↔
        (sync_earnings_payment_status expected splits).payment_variance <
          -(1/100))) := by
  subst hd
  have hv := varianceStatusIff ((splitActuals splits).1 -
    (calculate_earnings gross lines a).contractor_total_earnings)
  refine ⟨splitActuals_fst splits, rfl, hv.1, hv.2.1, hv.2.2, ?_⟩
  intro expected
  have hs := syncVarianceStatusIff (contractorDeposit splits - expected)
  exact ⟨rfl, hs.1, hs.2.1, hs.2.2⟩

/-- C2: once dual-tracking has run for a paystub, the record's amount-pending
is set from the actual deposit total (the sum of the contractor-owned deposit
splits), i.e. it always equals actual-payments; concretely, on a paystub with
computed entitlement 100.00 and a 30.00 contractor deposit, pending becomes
30.00 while expected-earnings stays 100.00. -/
theorem dual_tracking_pending_from_actual (gross : ℚ) (lines : List PayLine)
    (a : Assignment) (splits : List AccountSplit) :
    (calculate_earnings_with_dual_tracking gross lines a
        splits).amount_pending =
      ((splits.filter (fun s => s.owner_type == OwnerType.contractor)).map
        (fun s => s.amount)).sum ∧
    (calculate_earnings_with_dual_tracking gross lines a
        splits).amount_pending =
      (calculate_earnings_with_dual_tracking gross lines a
        splits).actual_payments ∧
    (calculate_earnings_with_dual_tracking 150 [⟨"Regular", 40, 5/2, 100⟩]
        ⟨.percentage, 0, 100, 50⟩ [⟨.contractor, 30⟩]).amount_pending = 30 ∧
    (calculate_earnings_with_dual_tracking 150 [⟨"Regular", 40, 5/2, 100⟩]
        ⟨.percentage, 0, 100, 50⟩ [⟨.contractor, 30⟩]).expected_earnings =
      100 := by
  refine ⟨splitActuals_fst splits, rfl, ?_, ?_⟩ <;>
    · simp +decide only [calculate_earnings_with_dual_tracking,
        calculate_earnings, identify_bonuses, splitActuals, quantize2,
        roundHalfUpInt]
      norm_num

/-- C1 counterexample: after dual-tracking has run (the dual-tracking variant
of earnings creation, one of the claim's mutating operations), amount-paid +
amount-pending does not equal expected-earnings: with computed entitlement
100.00 and an 80.00 contractor deposit, paid + pending is 80.00 while the
paid-basis total (expected-earnings) is 100.00. -/
theorem ledger_identity_counterexample :
    (calculate_earnings_with_dual_tracking 150 [⟨"Regular", 40, 5/2, 100⟩]
        ⟨.percentage, 0, 100, 50⟩ [⟨.contractor, 80⟩]).amount_paid +
      (calculate_earnings_with_dual_tracking 150 [⟨"Regular", 40, 5/2, 100⟩]
        ⟨.percentage, 0, 100, 50⟩ [⟨.contractor, 80⟩]).amount_pending ≠
    (calculate_earnings_with_dual_tracking 150 [⟨"Regular", 40, 5/2, 100⟩]
        ⟨.percentage, 0, 100, 50⟩ [⟨.contractor, 80⟩]).expected_earnings := by
  simp +decide only [calculate_earnings_with_dual_tracking, calculate_earnings,
    identify_bonuses, splitActuals, quantize2, roundHalfUpInt]
  norm_num

/-- C1 (amended): amount-paid + amount-pending equals the record's
payee-total basis after plain earnings creation, after every
allocation-update step, after reconciliation sync (where the basis,
expected-earnings, numerically equals the stored payee total), and after
every manager allocation or reversal step; after dual-tracking creation,
however, paid + pending equals actual-payments, not expected-earnings. -/
theorem ledger_identity_amended :
    (∀ (gross : ℚ) (lines : List PayLine) (a : Assignment),
      (calculate_earnings gross lines a).amount_paid +
        (calculate_earnings gross lines a).amount_pending =
      (calculate_earnings gross lines a).contractor_total_earnings) ∧
    (∀ (e : EarningRecord) (amt : ℚ),
      (update_earning_payment_status e amt).amount_paid +
        (update_earning_payment_status e amt).amount_pending =
      (update_earning_payment_status e amt).contractor_total_earnings) ∧
    (∀ (expected : ℚ) (splits : List AccountSplit),
      (sync_earnings_payment_status expected splits).amount_paid +
        (sync_earnings_payment_status expected splits).amount_pending =
      (sync_earnings_payment_status expected splits).expected_earnings) ∧
    (∀ (recs : List ManagerEarning) (al : Allocation)
        (e : ManagerEarning), e ∈ applyManagerAllocation recs al →
      e ∈ recs ∨ e.amount_paid + e.amount_pending = e.total_earnings) ∧
    (∀ (recs : List ManagerEarning) (al : Allocation)
        (e : ManagerEarning), e ∈ reverseManagerAllocation recs al →
      e ∈ recs ∨ e.amount_paid + e.amount_pending = e.total_earnings) ∧
    (∀ (gross : ℚ) (lines : List PayLine) (a : Assignment)
        (splits : List AccountSplit),
      (calculate_earnings_with_dual_tracking gross lines a
          splits).amount_paid +
        (calculate_earnings_with_dual_tracking gross lines a
          splits).amount_pending =
      (calculate_earnings_with_dual_tracking gross lines a
        splits).actual_payments) := by
  refine ⟨?_, ?_, ?_, ?_, ?_, ?_⟩
  · intro gross lines a
    exact zero_add _
  · intro e amt
    show e.amount_paid + amt +
        (e.contractor_total_earnings - (e.amount_paid + amt)) =
      e.contractor_total_earnings
    ring
  · intro expected splits
    show contractorDeposit splits +
        (expected - contractorDeposit splits) = expected
    ring
  · intro recs al e he
    rcases List.mem_map.mp he with ⟨x, hx, rfl⟩
    by_cases h : x.id == al.earning_id
    · right
      simp only [applyManagerAllocation, h, if_pos]
      ring
    · left
      simpa [applyManagerAllocation, h] using hx
  · intro recs al e he
    rcases List.mem_map.mp he with ⟨x, hx, rfl⟩
    by_cases h : x.id == al.earning_id
    · right
      simp only [reverseManagerAllocation, h, if_pos]
      ring
    · left
      simpa [reverseManagerAllocation, h] using hx
  · intro gross lines a splits
    exact zero_add _

theorem ledger_identity_amended_witness :
    (⟨1, 1, 150, 0, 150, .unpaid⟩ : ManagerEarning) ∈
        applyManagerAllocation [⟨1, 1, 150, 0, 150, .unpaid⟩] ⟨2, 50⟩ →
      (⟨1, 1, 150, 0, 150, .unpaid⟩ : ManagerEarning) ∈
          [(⟨1, 1, 150, 0, 150, .unpaid⟩ : ManagerEarning)] ∨
        (0 : ℚ) + 150 = 150 :=
  fun h => by
    have h2 := ledger_identity_amended.2.2.2.1 [⟨1, 1, 150, 0, 150, .unpaid⟩]
      ⟨2, 50⟩ ⟨1, 1, 150, 0, 150, .unpaid⟩ h
    exact h2

/-- C7: Rate Engine validation fails iff the payee total is not positive or
the reconciliation bound (2 cents) is violated; a negative counterparty
margin with an otherwise valid record is accepted with the warning flag set,
never an error; and every Rate Engine output satisfies the 2-cent
reconciliation bound. -/
theorem rate_engine_validation (e : Earnings) :
    (validationOk (validate_earnings e) = false ↔
      (¬ 0 < e.contractor_total_earnings ∨
        2/100 < |e.contractor_total_earnings + e.company_margin -
          e.client_gross_pay|)) ∧
    (e.company_margin < 0 → 0 < e.contractor_total_earnings →
      |e.contractor_total_earnings + e.company_margin -
          e.client_gross_pay| ≤ 2/100 →
      validate_earnings e = .ok true) ∧
    (∀ (gross : ℚ) (lines : List PayLine) (a : Assignment),
      |(calculate_earnings gross lines a).contractor_total_earnings +
          (calculate_earnings gross lines a).company_margin -
          (calculate_earnings gross lines a).client_gross_pay| ≤ 2/100) := by
  refine ⟨?_, ?_, ?_⟩
  · unfold validate_earnings validationOk
    split_ifs with h1 h2
    · exact iff_of_true rfl (Or.inr h1)
    · exact iff_of_true rfl (Or.inl (not_lt.mpr h2))
    · refine iff_of_false (by simp) ?_
      rintro (hc | hc)
      · exact hc (lt_of_not_le h2)
      · exact h1 hc
  · intro hm ht hb
    unfold validate_earnings
    rw [if_neg (not_lt.mpr hb), if_neg (not_le.mpr ht)]
    simp [hm]
  · intro gross lines a
    show |(calculate_earnings gross lines a).contractor_total_earnings +
        (gross - (calculate_earnings gross lines a).contractor_total_earnings)
        - gross| ≤ 2/100
    rw [show (calculate_earnings gross lines a).contractor_total_earnings +
        (gross - (calculate_earnings gross lines a).contractor_total_earnings)
        - gross = 0 from by ring]
    norm_num

theorem rate_engine_validation_witness :
    validate_earnings ⟨100, 0, 120, 0, 120, -20, .unpaid, 0, 120⟩ =
      .ok true :=
  (rate_engine_validation ⟨100, 0, 120, 0, 120, -20, .unpaid, 0, 120⟩).2.1
    (by norm_num) (by norm_num) (by norm_num)

/-- C5: in percentage mode, payee regular earnings are
percentage-rate/100 × (sum of all regular-bucket amounts, supplemental lines
included), rounded half-up to the cent, and the incentive share is
incentive-split/100 × (sum of incentive-bucket amounts); on the scenario
(rate 25%, split 50%, regular lines summing 1000.00 with a 100.00
supplemental differential line, bonus line 200.00) the result is
regular 250.00, incentive 100.00, total 350.00. -/
theorem percentage_mode_earnings (gross : ℚ) (lines : List PayLine)
    (a : Assignment) (h : a.rate_type = RateType.percentage) :
    (calculate_earnings gross lines a).contractor_regular_earnings =
      quantize2 ((((identify_bonuses lines).1.map (fun r => r.amount)).sum) *
        a.percentage_rate / 100) ∧
    (calculate_earnings gross lines a).contractor_bonus_share =
      quantize2 ((((identify_bonuses lines).2.map (fun b => b.amount)).sum) *
        a.bonus_split_percentage / 100) ∧
    matchesAny "Shift Differential" SUPPLEMENTAL_HOUR_KEYWORDS = true ∧
    (((identify_bonuses
        [⟨"Regular", 80, 25/2, 900⟩, ⟨"Shift Differential", 0, 0, 100⟩,
         ⟨"Bonus", 0, 0, 200⟩]).1.map (fun r => r.amount)).sum = 1000) ∧
    (calculate_earnings 1500
        [⟨"Regular", 80, 25/2, 900⟩, ⟨"Shift Differential", 0, 0, 100⟩,
         ⟨"Bonus", 0, 0, 200⟩]
        ⟨.percentage, 0, 25, 50⟩).contractor_regular_earnings = 250 ∧
    (calculate_earnings 1500
        [⟨"Regular", 80, 25/2, 900⟩, ⟨"Shift Differential", 0, 0, 100⟩,
         ⟨"Bonus", 0, 0, 200⟩]
        ⟨.percentage, 0, 25, 50⟩).contractor_bonus_share = 100 ∧
    (calculate_earnings 1500
        [⟨"Regular", 80, 25/2, 900⟩, ⟨"Shift Differential", 0, 0, 100⟩,
         ⟨"Bonus", 0, 0, 200⟩]
        ⟨.percentage, 0, 25, 50⟩).contractor_total_earnings = 350 := by
  obtain ⟨rt, fr, pr, bs⟩ := a
  simp only [Assignment.rate_type] at h
  subst h
  refine ⟨rfl, rfl, by decide, ?_, ?_, ?_, ?_⟩ <;>
    · simp +decide only [calculate_earnings, identify_bonuses, quantize2,
        roundHalfUpInt]
      norm_num

theorem percentage_mode_earnings_witness :
    (calculate_earnings 1500
        [⟨"Regular", 80, 25/2, 900⟩, ⟨"Shift Differential", 0, 0, 100⟩,
         ⟨"Bonus", 0, 0, 200⟩]
        ⟨.percentage, 0, 25, 50⟩).contractor_regular_earnings =
      quantize2 ((((identify_bonuses
          [⟨"Regular", 80, 25/2, 900⟩, ⟨"Shift Differential", 0, 0, 100⟩,
           ⟨"Bonus", 0, 0, 200⟩]).1.map (fun r => r.amount)).sum) * 25 /
        100) :=
  (percentage_mode_earnings 1500
    [⟨"Regular", 80, 25/2, 900⟩, ⟨"Shift Differential", 0, 0, 100⟩,
     ⟨"Bonus", 0, 0, 200⟩] ⟨.percentage, 0, 25, 50⟩ rfl).1

/-- C4: in fixed-hourly mode, supplemental regular-bucket lines (premium,
differential, GTL, gross-up) are skipped entirely — their multiplier is
`none`, they contribute no dollars (closed-form sum over surviving lines
only) and no hours; a non-supplemental overtime line gets multiplier 1.5
when an overtime-premium companion exists; and the scenario
[Regular 70h@15.00, Overtime 10h@22.50, Overtime Premium 10h@7.50] with
fixed rate 5.00 yields payee total 425.00 (hours 80). -/
theorem fixed_mode_supplemental_skipped :
    (∀ (desc : String) (rate : ℚ) (br : Option ℚ) (ot : Bool),
      matchesAny desc SUPPLEMENTAL_HOUR_KEYWORDS = true →
      get_earning_multiplier desc rate br ot = none) ∧
    (∀ (gross : ℚ) (lines : List PayLine) (a : Assignment) (e : PayLine),
      matchesAny e.description SUPPLEMENTAL_HOUR_KEYWORDS = true →
      (calculate_earnings gross (e :: lines) a).client_total_hours =
        (calculate_earnings gross lines a).client_total_hours) ∧
    (∀ (desc : String) (rate : ℚ) (br : Option ℚ),
      matchesAny desc SUPPLEMENTAL_HOUR_KEYWORDS = false →
      containsKw desc "overtime" = true →
      get_earning_multiplier desc rate br true = some (3/2)) ∧
    (∀ (fr : ℚ) (br : Option ℚ) (ot : Bool) (lines : List PayLine),
      contractorRegularFixed fr br ot lines =
        ((lines.filter (fun e => decide (0 < e.hours) &&
            (get_earning_multiplier e.description e.rate br ot).isSome)).map
          (fun e => quantize2 (e.hours * fr *
            ((get_earning_multiplier e.description e.rate br ot).getD
              1)))).sum) ∧
    (calculate_earnings 1350
        [⟨"Regular", 70, 15, 1050⟩, ⟨"Overtime", 10, 45/2, 225⟩,
         ⟨"Overtime Premium", 10, 15/2, 75⟩]
        ⟨.fixed, 5, 0, 50⟩).contractor_total_earnings = 425 ∧
    (calculate_earnings 1350
        [⟨"Regular", 70, 15, 1050⟩, ⟨"Overtime", 10, 45/2, 225⟩,
         ⟨"Overtime Premium", 10, 15/2, 75⟩]
        ⟨.fixed, 5, 0, 50⟩).client_total_hours = 80 := by
  refine ⟨?_, ?_, ?_, ?_, ?_, ?_⟩
  · intro desc rate br ot h
    simp [get_earning_multiplier, h]
  · intro gross lines a e he
    cases hreg : isRegularLine e <;>
      simp [calculate_earnings, identify_bonuses_eq_filter, List.filter_cons,
        hreg, he]
  · intro desc rate br hsupp hot
    simp [get_earning_multiplier, hsupp, hot]
  · intro fr br ot lines
    induction lines with
    | nil => rfl
    | cons e rest ih =>
      by_cases hh : e.hours ≤ 0
      · have h0 : ¬ (0 < e.hours) := not_lt.mpr hh
        simp [contractorRegularFixed, List.filter_cons, hh, h0, ih]
      · have h0 : 0 < e.hours := lt_of_not_le hh
        cases hm : get_earning_multiplier e.description e.rate br ot with
        | none =>
          simp [contractorRegularFixed, List.filter_cons, hh, h0, hm, ih]
        | some m =>
          simp [contractorRegularFixed, List.filter_cons, hh, h0, hm, ih]
  · simp +decide only [calculate_earnings, identify_bonuses, get_base_rate,
      has_overtime_premium, contractorRegularFixed, get_earning_multiplier,
      quantize2, roundHalfUpInt, roundToHalf]
    norm_num
  · have h : (calculate_earnings 1350
        [⟨"Regular", 70, 15, 1050⟩, ⟨"Overtime", 10, 45/2, 225⟩,
         ⟨"Overtime Premium", 10, 15/2, 75⟩]
        ⟨.fixed, 5, 0, 50⟩).client_total_hours = 70 + (10 + 0) := rfl
    rw [h]
    norm_num

theorem fixed_mode_supplemental_skipped_witness :
    get_earning_multiplier "Overtime Premium" (15/2) (some 15) true = none ∧
    get_earning_multiplier "Overtime" (45/2) (some 15) true = some (3/2) :=
  ⟨fixed_mode_supplemental_skipped.1 "Overtime Premium" (15/2) (some 15) true
      (by decide),
   fixed_mode_supplemental_skipped.2.2.1 "Overtime" (45/2) (some 15)
      (by decide) (by decide)⟩

theorem allocateFifoGo_eq_spec (recs : List EarningRecord) :
    ∀ remaining : ℚ, 0 ≤ remaining →
    (∀ e ∈ recs, 0 ≤ e.amount_pending) →
    allocateFifoGo remaining recs = fifoSpecWalk remaining recs := by
  induction recs with
  | nil => intro r _ _; rfl
  | cons e rest ih =>
    intro r hr hp
    have hpe : 0 ≤ e.amount_pending := hp e (List.mem_cons_self e rest)
    have hprest : ∀ x ∈ rest, 0 ≤ x.amount_pending :=
      fun x hx => hp x (List.mem_cons_of_mem e hx)
    by_cases hz : r ≤ 0
    · have hr0 : r = 0 := le_antisymm hz hr
      simp [allocateFifoGo, fifoSpecWalk, hz, hr0]
    · have hrne : r ≠ 0 := fun hcon => hz (le_of_eq hcon)
      by_cases hpz : e.amount_pending ≤ 0
      · have hp0 : e.amount_pending = 0 := le_antisymm hpz hpe
        simp [allocateFifoGo, fifoSpecWalk, hz, hrne, hpz, hp0,
          ih r hr hprest]
      · have hpne : ¬ e.amount_pending = 0 :=
          fun hcon => hpz (le_of_eq hcon)
        have hnext : (0:ℚ) ≤ r - min r e.amount_pending :=
          sub_nonneg.mpr (min_le_left r e.amount_pending)
        simp [allocateFifoGo, fifoSpecWalk, hz, hrne, hpz, hpne,
          ih _ hnext hprest]

/-- C3: for a positive payment and records ordered strictly ascending by
period-begin date with nonnegative pending amounts, the FIFO allocator
behaves exactly as specified (skip pending-0 records, allocate
min(remaining, pending), stop at 0 or exhaustion); in particular, for
records A (pending 150.00, oldest) and B (pending 300.00) and a 200.00
payment it allocates 150.00 to A (paid) and 50.00 to B (partially_paid,
pending 250.00). -/
theorem fifo_allocator_matches_spec (payment : ℚ)
    (recs : List EarningRecord) (hpos : 0 < payment)
    (hpend : ∀ e ∈ recs, 0 ≤ e.amount_pending)
    (hsorted : List.Pairwise
      (fun x y : EarningRecord =>
        x.pay_period_begin < y.pay_period_begin) recs) :
    allocate_payment_fifo payment recs = fifoSpecWalk payment recs ∧
    allocate_payment_fifo 200
      [⟨1, 1, 150, 0, 150, .unpaid⟩, ⟨2, 2, 300, 0, 300, .unpaid⟩] =
      [⟨1, 150⟩, ⟨2, 50⟩] ∧
    applyContractorAllocations
      [⟨1, 1, 150, 0, 150, .unpaid⟩, ⟨2, 2, 300, 0, 300, .unpaid⟩]
      (allocate_payment_fifo 200
        [⟨1, 1, 150, 0, 150, .unpaid⟩, ⟨2, 2, 300, 0, 300, .unpaid⟩]) =
      [⟨1, 1, 150, 150, 0, .paid⟩,
       ⟨2, 2, 300, 50, 250, .partially_paid⟩] := by
  have hfifo : allocate_payment_fifo 200
      [⟨1, 1, 150, 0, 150, .unpaid⟩, ⟨2, 2, 300, 0, 300, .unpaid⟩] =
      [⟨1, 150⟩, ⟨2, 50⟩] := by
    norm_num [allocate_payment_fifo, allocateFifoGo, min_def]
  refine ⟨allocateFifoGo_eq_spec recs payment (le_of_lt hpos) hpend,
    hfifo, ?_⟩
  rw [hfifo]
  norm_num [applyContractorAllocations, applyContractorAllocation,
    update_earning_payment_status, derivePaymentStatus]

theorem fifo_allocator_matches_spec_witness :
    allocate_payment_fifo 200
      [⟨1, 1, 150, 0, 150, .unpaid⟩, ⟨2, 2, 300, 0, 300, .unpaid⟩] =
      fifoSpecWalk 200
      [⟨1, 1, 150, 0, 150, .unpaid⟩, ⟨2, 2, 300, 0, 300, .unpaid⟩] :=
  (fifo_allocator_matches_spec 200
    [⟨1, 1, 150, 0, 150, .unpaid⟩, ⟨2, 2, 300, 0, 300, .unpaid⟩]
    (by norm_num) (by intro e he; fin_cases he <;> norm_num)
    (by norm_num [List.pairwise_cons])).1

theorem applyManagerAllocation_cons (e : ManagerEarning)
    (rest : List ManagerEarning) (al : Allocation) :
    applyManagerAllocation (e :: rest) al =
      (if e.id == al.earning_id then
        { e with
          amount_paid := e.amount_paid + al.amount
          amount_pending := e.total_earnings - (e.amount_paid + al.amount)
          payment_status :=
            derivePaymentStatus (e.amount_paid + al.amount)
              (e.total_earnings - (e.amount_paid + al.amount)) }
      else e) :: applyManagerAllocation rest al := by
  simp [applyManagerAllocation]

theorem reverseManagerAllocation_cons (e : ManagerEarning)
    (rest : List ManagerEarning) (al : Allocation) :
    reverseManagerAllocation (e :: rest) al =
      (if e.id == al.earning_id then
        { e with
          amount_paid := max 0 (e.amount_paid - al.amount)
          amount_pending :=
            e.total_earnings - max 0 (e.amount_paid - al.amount)
          payment_status :=
            derivePaymentStatus (max 0 (e.amount_paid - al.amount))
              (e.total_earnings - max 0 (e.amount_paid - al.amount)) }
      else e) :: reverseManagerAllocation rest al := by
  simp [reverseManagerAllocation]

theorem reverse_apply_cancel (al : Allocation) :
    ∀ R : List ManagerEarning, (∀ e ∈ R, wfManagerEarning e) →
    reverseManagerAllocation (applyManagerAllocation R al) al = R := by
  intro R
  induction R with
  | nil => intro _; rfl
  | cons e rest ih =>
    intro hwf
    have hwfe := hwf e (List.mem_cons_self e rest)
    have ihr := ih (fun x hx => hwf x (List.mem_cons_of_mem e hx))
    obtain ⟨i, d, T, p, pd, st⟩ := e
    obtain ⟨hp0, hpd, hst⟩ := hwfe
    rw [applyManagerAllocation_cons]
    by_cases h : i == al.earning_id
    · rw [if_pos]
      · rw [reverseManagerAllocation_cons, if_pos, ihr]
        · have hmax : max 0 (p + al.amount - al.amount) = p := by
            rw [add_sub_cancel_right]
            exact max_eq_right hp0
          simp only [hmax]
          simp only [ManagerEarning.amount_pending] at hpd
          simp only [ManagerEarning.payment_status] at hst
          rw [← hpd, ← hst]
        · exact h
      · exact h
    · rw [if_neg h, reverseManagerAllocation_cons, if_neg h, ihr]

theorem reverse_comm_apply (al al' : Allocation)
    (hne : al.earning_id ≠ al'.earning_id) :
    ∀ R : List ManagerEarning,
    reverseManagerAllocation (applyManagerAllocation R al') al =
      applyManagerAllocation (reverseManagerAllocation R al) al' := by
  intro R
  induction R with
  | nil => rfl
  | cons e rest ih =>
    by_cases h1 : e.id = al'.earning_id
    · have h2 : e.id ≠ al.earning_id :=
        fun hcon => hne (hcon.symm.trans h1)
      simp [applyManagerAllocation_cons, reverseManagerAllocation_cons,
        h1, h2, hne, Ne.symm hne, ih]
    · by_cases h2 : e.id = al.earning_id
      · simp [applyManagerAllocation_cons, reverseManagerAllocation_cons,
          h1, h2, hne, Ne.symm hne, ih]
      · simp [applyManagerAllocation_cons, reverseManagerAllocation_cons,
          h1, h2, hne, Ne.symm hne, ih]

theorem reverse_past_applies (al : Allocation) :
    ∀ (as_ : List Allocation) (R : List ManagerEarning),
    al.earning_id ∉ as_.map (fun x => x.earning_id) →
    reverseManagerAllocation (as_.foldl applyManagerAllocation R) al =
      as_.foldl applyManagerAllocation (reverseManagerAllocation R al) := by
  intro as_
  induction as_ with
  | nil => intro R _; rfl
  | cons a rest ih =>
    intro R hmem
    have h1 : al.earning_id ≠ a.earning_id := by
      intro hcon
      exact hmem (by simp [hcon])
    have h2 : al.earning_id ∉ rest.map (fun x => x.earning_id) := by
      intro hcon
      exact hmem (by simp [hcon])
    simp only [List.foldl_cons]
    rw [ih _ h2, reverse_comm_apply al a h1]

theorem managerFifoAllocs_ids_sublist (recs : List ManagerEarning) :
    ∀ r : ℚ,
    List.Sublist ((managerFifoAllocs r recs).map (fun a => a.earning_id))
      (recs.map (fun e => e.id)) := by
  induction recs with
  | nil => intro r; simp [managerFifoAllocs]
  | cons e rest ih =>
    intro r
    by_cases h1 : r ≤ 0
    · simp only [managerFifoAllocs, if_pos h1]
      exact List.nil_sublist _
    · by_cases h2 : e.amount_pending ≤ 0
      · simp only [managerFifoAllocs, if_neg h1, if_pos h2]
        exact (ih r).cons e.id
      · simp only [managerFifoAllocs, if_neg h1, if_neg h2, List.map_cons]
        exact (ih _).cons₂ e.id

theorem apply_then_reverse_cancel :
    ∀ (as_ : List Allocation) (R : List ManagerEarning),
    (∀ e ∈ R, wfManagerEarning e) →
    (as_.map (fun x => x.earning_id)).Nodup →
    as_.foldl reverseManagerAllocation
      (as_.foldl applyManagerAllocation R) = R := by
  intro as_
  induction as_ with
  | nil => intro R _ _; rfl
  | cons al rest ih =>
    intro R hwf hnd
    rw [List.map_cons, List.nodup_cons] at hnd
    simp only [List.foldl_cons]
    rw [reverse_past_applies al rest (applyManagerAllocation R al) hnd.1,
      reverse_apply_cancel al R hwf]
    exact ih R hwf hnd.2

/-- C6: recording a manager payment (which FIFO-allocates it across the
outstanding earnings, decrementing pending) and then deleting it (which
decrements each touched record's amount-paid by the allocated amount floored
at 0, recomputes pending and status, and removes the allocation rows and the
payment row) restores every record's amount-paid, amount-pending and
payment-status to their exact pre-allocation values: the whole database
returns to its prior state. -/
theorem payment_reversal_inverse (db : ManagerPayDB) (pid : Nat) (amt : ℚ)
    (hfreshP : ∀ p ∈ db.payments, p.id ≠ pid)
    (hfreshA : ∀ r ∈ db.allocations, r.payment_id ≠ pid)
    (hwf : ∀ e ∈ db.earnings, wfManagerEarning e)
    (hnd : (db.earnings.map (fun e => e.id)).Nodup) :
    delete_manager_payment (record_manager_payment db pid amt) pid = db := by
  obtain ⟨ps, als, es⟩ := db
  simp only [] at hfreshP hfreshA hwf hnd
  have hallocs_nd : ((managerFifoAllocs amt (es.filter isOutstanding)).map
      (fun a => a.earning_id)).Nodup := by
    have hsub := managerFifoAllocs_ids_sublist (es.filter isOutstanding) amt
    have hsub2 : List.Sublist
        ((es.filter isOutstanding).map (fun e => e.id))
        (es.map (fun e => e.id)) :=
      (List.filter_sublist es).map (fun e => e.id)
    exact hnd.sublist (hsub.trans hsub2)
  simp only [record_manager_payment, delete_manager_payment,
    ManagerPayDB.mk.injEq]
  have hP : (ps ++ [(⟨pid, amt⟩ : ManagerPayment)]).filter
      (fun p => !(p.id == pid)) = ps := by
    rw [List.filter_append]
    have h1 : ps.filter (fun p => !(p.id == pid)) = ps :=
      List.filter_eq_self.mpr (fun p hp => by simp [hfreshP p hp])
    have h2 : ([(⟨pid, amt⟩ : ManagerPayment)]).filter
        (fun p => !(p.id == pid)) = [] := by simp
    rw [h1, h2, List.append_nil]
  have hA1 : als.filter
      (fun r => !(r.payment_id == pid)) = als :=
    List.filter_eq_self.mpr (fun r hr => by simp [hfreshA r hr])
  have hA2 : ((managerFifoAllocs amt (es.filter isOutstanding)).map
      (fun a => (⟨pid, a.earning_id, a.amount⟩ : ManagerAllocRow))).filter
      (fun r => !(r.payment_id == pid)) = [] := by
    simp [List.filter_map, Function.comp]
  have hT1 : als.filter (fun r => r.payment_id == pid) = [] := by
    rw [List.filter_eq_nil_iff]
    intro r hr
    simp [hfreshA r hr]
  have hT2 : ((managerFifoAllocs amt (es.filter isOutstanding)).map
      (fun a => (⟨pid, a.earning_id, a.amount⟩ : ManagerAllocRow))).filter
      (fun r => r.payment_id == pid) =
      (managerFifoAllocs amt (es.filter isOutstanding)).map
        (fun a => (⟨pid, a.earning_id, a.amount⟩ : ManagerAllocRow)) := by
    apply List.filter_eq_self.mpr
    intro r hr
    rcases List.mem_map.mp hr with ⟨a, _, rfl⟩
    simp
  have hback : ((managerFifoAllocs amt (es.filter isOutstanding)).map
      (fun a => (⟨pid, a.earning_id, a.amount⟩ : ManagerAllocRow))).map
      (fun r => (⟨r.manager_earning_id, r.amount_allocated⟩ : Allocation)) =
      managerFifoAllocs amt (es.filter isOutstanding) := by
    rw [List.map_map]
    have hid : ∀ a : Allocation,
        ((fun r : ManagerAllocRow =>
            (⟨r.manager_earning_id, r.amount_allocated⟩ : Allocation)) ∘
          (fun a : Allocation =>
            (⟨pid, a.earning_id, a.amount⟩ : ManagerAllocRow))) a = a :=
      fun a => rfl
    rw [List.map_congr_left (fun a _ => hid a)]
    simp
  refine ⟨hP, ?_, ?_⟩
  · rw [List.filter_append, hA1, hA2, List.append_nil]
  · rw [List.filter_append, hT1, hT2, List.nil_append, hback]
    exact apply_then_reverse_cancel _ es hwf hallocs_nd

theorem payment_reversal_inverse_witness :
    delete_manager_payment
      (record_manager_payment
        ⟨[], [], [⟨1, 1, 150, 0, 150, .unpaid⟩, ⟨2, 2, 300, 0, 300, .unpaid⟩]⟩
        7 200) 7 =
    ⟨[], [], [⟨1, 1, 150, 0, 150, .unpaid⟩, ⟨2, 2, 300, 0, 300, .unpaid⟩]⟩ :=
  payment_reversal_inverse
    ⟨[], [], [⟨1, 1, 150, 0, 150, .unpaid⟩, ⟨2, 2, 300, 0, 300, .unpaid⟩]⟩
    7 200 (by intro p hp; cases hp) (by intro r hr; cases hr)
    (by
      intro e he
      fin_cases he <;>
        exact ⟨by norm_num, by norm_num, by norm_num [derivePaymentStatus]⟩)
    (by decide)

/-- C10: `PaymentService` defines no `delete_payment` method (nor
`preview_fifo_allocation`), so for any implementation table that only
implements methods the class defines, the contractor payment-deletion
endpoint always fails with an AttributeError-backed 500 error and leaves the
database unchanged; likewise the allocation-preview endpoint. -/
theorem contractor_delete_payment_unimplemented
    (impl : String → Option (ContractorPayDB → Nat → ContractorPayDB))
    (db : ContractorPayDB) (pid cid : Nat)
    (himpl : ∀ (n : String) (f : ContractorPayDB → Nat → ContractorPayDB),
      impl n = some f → n ∈ paymentServiceMethods)
    (hex : ∃ p ∈ db.payments, p.id = pid) :
    (delete_payment_endpoint impl db pid).1 =
      .internalError "AttributeError: delete_payment" ∧
    (delete_payment_endpoint impl db pid).2 = db ∧
    (preview_allocation_endpoint impl db cid).1 =
      .internalError "AttributeError: preview_fifo_allocation" ∧
    (preview_allocation_endpoint impl db cid).2 = db := by
  have hdel : impl "delete_payment" = none := by
    cases himp : impl "delete_payment" with
    | none => rfl
    | some f => exact absurd (himpl _ f himp) (by decide)
  have hprev : impl "preview_fifo_allocation" = none := by
    cases himp : impl "preview_fifo_allocation" with
    | none => rfl
    | some f => exact absurd (himpl _ f himp) (by decide)
  have hall : db.payments.all (fun p => !(p.id == pid)) = false := by
    rcases hex with ⟨p, hp, hid⟩
    rw [List.all_eq_false]
    exact ⟨p, hp, by simp [hid]⟩
  refine ⟨?_, ?_, ?_, ?_⟩ <;>
    simp [delete_payment_endpoint, preview_allocation_endpoint,
      callPaymentServiceMethod, hall, hdel, hprev]

theorem contractor_delete_payment_unimplemented_witness :
    (delete_payment_endpoint (fun _ => none) ⟨[⟨5⟩], [], []⟩ 5).1 =
      .internalError "AttributeError: delete_payment" ∧
    (delete_payment_endpoint (fun _ => none) ⟨[⟨5⟩], [], []⟩ 5).2 =
      ⟨[⟨5⟩], [], []⟩ ∧
    (preview_allocation_endpoint (fun _ => none) ⟨[⟨5⟩], [], []⟩ 0).1 =
      .internalError "AttributeError: preview_fifo_allocation" ∧
    (preview_allocation_endpoint (fun _ => none) ⟨[⟨5⟩], [], []⟩ 0).2 =
      ⟨[⟨5⟩], [], []⟩ :=
  contractor_delete_payment_unimplemented (fun _ => none) ⟨[⟨5⟩], [], []⟩ 5 0
    (fun n f h => Option.noConfusion h)
    ⟨⟨5⟩, by simp, rfl⟩

theorem reconciler_variance_classification_witness :
    (calculate_earnings_with_dual_tracking 150 [⟨"Regular", 40, 5/2, 100⟩]
        ⟨.percentage, 0, 100, 50⟩ [⟨.contractor, 30⟩]).actual_payments =
      ((([⟨.contractor, 30⟩] : List AccountSplit).filter
        (fun s => s.owner_type == OwnerType.contractor)).map
        (fun s => s.amount)).sum :=
  (reconciler_variance_classification 150 [⟨"Regular", 40, 5/2, 100⟩]
    ⟨.percentage, 0, 100, 50⟩ [⟨.contractor, 30⟩] _ rfl).1

end Dotfak
